import Mathlib

set_option maxRecDepth 10000

/-!
Verification of the Velmora on-chain game economy (Move modules
`velmora::velmora_nft` and `velmora::coins_of_aura`).

The Move code is shallowly embedded: the module's global resources become
Lean structures, each `entry fun` becomes a pure function returning
`Except MoveError σ` (an `abort` in Move leaves all state unchanged, which
is modelled by the `.error` case carrying no state), and u64 arithmetic is
`Nat` (no operation here can exceed 2^64: metadata ids are bounded by 1200
and the byte-fold in `mint_random_nft` consumes exactly 8 bytes).
External library state (the `aptos_token` token store and the fungible
asset store) is modelled as explicit record/balance tables.
-/

namespace Velmora

/-! ### Error codes and constants, from `velmora_nft.move` -/

def E_NOT_AUTHORIZED : Nat := 1
def E_COLLECTION_NOT_FOUND : Nat := 2
def E_INVALID_RARITY : Nat := 3
def E_INVALID_SKILL : Nat := 4
def E_INVALID_URI : Nat := 5

def MAX_RARITY : Nat := 100
def MAX_SKILL : Nat := 100
def MAX_METADATA_ID : Nat := 1200

/-- Abort categories used by the two modules.  `permissionDenied`,
`invalidArgument`, `invalidState`, `notFound` mirror `std::error`;
`insufficientBalance` is the abort of `fungible_asset::withdraw`;
`tokenAbort` stands for an abort inside the external `aptos_token`
module (e.g. transferring a token one does not hold). -/
inductive MoveError where
  | permissionDenied (code : Nat)
  | invalidArgument (code : Nat)
  | invalidState (code : Nat)
  | notFound (code : Nat)
  | insufficientBalance
  | tokenAbort
  deriving DecidableEq

/-- The `VelmoraNFTData` resource.  Event handles are modelled as counters
of emitted events; addresses are `Nat`. -/
structure VelmoraNFTData where
  admin : Nat
  used_metadata_ids : List Bool
  available_metadata_ids : List Nat
  available_count : Nat
  mint_events : Nat
  transfer_events : Nat
  burn_events : Nat
  deriving DecidableEq

/-- One token held in the external `aptos_token` store: owner address,
token name (bytes), the on-chain property map entries `rarity`, `skill`
and `ipfs_uri`. -/
structure AssetRecord where
  owner : Nat
  token_name : List Nat
  rarity : Nat
  skill : Nat
  uri : List Nat
  deriving DecidableEq

/-- The whole persisted state relevant to `velmora_nft`: the module's own
resource plus the external token store. -/
structure GlobalState where
  nft : VelmoraNFTData
  records : List AssetRecord
  deriving DecidableEq

/-- `initialize`: builds `available_metadata_ids = [1, …, 1200]` and
`used_metadata_ids = [false, …, false]` (the `while (i <= MAX_METADATA_ID)`
push loop) and stores the resource under the admin. -/
def init_nft_data (admin_addr : Nat) : VelmoraNFTData :=
  { admin := admin_addr
    used_metadata_ids := List.replicate MAX_METADATA_ID false
    available_metadata_ids := List.range' 1 MAX_METADATA_ID
    available_count := MAX_METADATA_ID
    mint_events := 0
    transfer_events := 0
    burn_events := 0 }

/-! ### URI validation -/

/-- UTF-8 code points of a string literal (all literals used are ASCII,
so this equals the byte view `string::bytes` used by the Move code). -/
def strBytes (s : String) : List Nat := s.toList.map Char.toNat

def ipfsPrefixBytes : List Nat := strBytes "ipfs://"
def httpsIpfsPrefixBytes : List Nat := strBytes "https://ipfs.io/ipfs/"
def pinataPrefixBytes : List Nat := strBytes "https://gateway.pinata.cloud/ipfs/"
def lighthousePrefixBytes : List Nat := strBytes "https://gateway.lighthouse.storage/ipfs/"

/-- One branch of `validate_ipfs_uri`: length guard then
`vector::slice(uri, 0, len(p)) == p`. -/
def sliceMatches (uri p : List Nat) : Bool :=
  if p.length ≤ uri.length then uri.take p.length == p else false

/-- `validate_ipfs_uri`, checking the four accepted schemes in order. -/
def validate_ipfs_uri (uri : List Nat) : Bool :=
  sliceMatches uri ipfsPrefixBytes || sliceMatches uri httpsIpfsPrefixBytes ||
    sliceMatches uri pinataPrefixBytes || sliceMatches uri lighthousePrefixBytes

/-! ### `mint_nft` and the helpers that build its arguments -/

/-- `mint_nft`: validates `rarity ≤ 100`, `skill ≤ 100`, the URI scheme,
then the admin identity, then creates one token for `to` and bumps the
mint-event handle.  The `descr` argument is accepted but (like the
tokendata description) plays no role in any checked property. -/
def mint_nft (creator to_addr : Nat) (name _descr uri : List Nat) (rarity skill : Nat)
    (g : GlobalState) : Except MoveError GlobalState :=
  if ¬ rarity ≤ MAX_RARITY then .error (.invalidArgument E_INVALID_RARITY)
  else if ¬ skill ≤ MAX_SKILL then .error (.invalidArgument E_INVALID_SKILL)
  else if ¬ validate_ipfs_uri uri then .error (.invalidArgument E_INVALID_URI)
  else if ¬ creator = g.nft.admin then .error (.permissionDenied E_NOT_AUTHORIZED)
  else
    .ok { nft := { g.nft with mint_events := g.nft.mint_events + 1 }
          records := g.records ++
            [{ owner := to_addr, token_name := name, rarity := rarity, skill := skill,
               uri := uri }] }

/-- Decimal digit bytes of `temp`, least significant first, mirroring the
`while (temp > 0)` loop of `u64_to_string`; `fuel ≥ temp` suffices. -/
def digitsGo (temp : Nat) : Nat → List Nat
  | 0 => []
  | fuel + 1 => if temp > 0 then (temp % 10 + 48) :: digitsGo (temp / 10) fuel else []

/-- `u64_to_string` (result as a byte list). -/
def u64_to_string (num : Nat) : List Nat :=
  if num = 0 then [48] else (digitsGo num num).reverse

def ipfsBaseBytes : List Nat :=
  strBytes "ipfs://bafybeiem7ucsjote74moefa2kmprng6cdtcey43hakgvpww3icahqtpgee/"
def jsonExtBytes : List Nat := strBytes ".json"
def auraNameBytes : List Nat := strBytes "Aura Eye #"
/-- Description text of the randomly minted NFTs; 39 is the apostrophe of
the original literal. -/
def auraDescrBytes : List Nat :=
  strBytes "Someone" ++ [39] ++ strBytes "s ALWAYS watching you in Aura land - Random NFT #"

/-- `mint_nft_with_metadata_id`: builds the `ipfs://…/<id>.json` URI, the
name and description, derives `rarity = id % 100 + 1` and
`skill = id * 7 % 100 + 1`, and calls `mint_nft`. -/
def mint_nft_with_metadata_id (creator to_addr metadata_id : Nat) (g : GlobalState) :
    Except MoveError GlobalState :=
  mint_nft creator to_addr (auraNameBytes ++ u64_to_string metadata_id)
    (auraDescrBytes ++ u64_to_string metadata_id)
    (ipfsBaseBytes ++ u64_to_string metadata_id ++ jsonExtBytes)
    (metadata_id % 100 + 1) (metadata_id * 7 % 100 + 1) g

/-! ### The circular scan of `mint_random_nft_secure` -/

/-- Body of the `while (attempts < MAX_METADATA_ID)` scan.  `fuel` is
`MAX_METADATA_ID - attempts`, so `fuel = 0` is exactly the loop exit with
`metadata_id` still `0`.  Out-of-range bitmap reads default to `true`
(`vector::borrow` would abort; all uses keep the index in range). -/
def scanGo (used : List Bool) (random_number attempts : Nat) : Nat → Nat
  | 0 => 0
  | fuel + 1 =>
    if used.getD ((random_number + attempts - 1) % MAX_METADATA_ID + 1 - 1) true = false
    then (random_number + attempts - 1) % MAX_METADATA_ID + 1
    else scanGo used random_number (attempts + 1) fuel

/-- The complete scan, started at `attempts = 0`. -/
def scan_for_metadata_id (used : List Bool) (random_number : Nat) : Nat :=
  scanGo used random_number 0 MAX_METADATA_ID

/-- `vector::swap_remove`: overwrite position `i` with the last element,
then pop the last element. -/
def swap_remove (l : List Nat) (i : Nat) : List Nat :=
  (l.set i (l.getD (l.length - 1) 0)).dropLast

/-- The `while` loop in `mint_random_nft_secure` that locates
`metadata_id` inside `available_metadata_ids` (first index, or none). -/
def find_id_index (avail : List Nat) (metadata_id : Nat) : Option Nat :=
  match avail with
  | [] => none
  | a :: rest =>
    if a = metadata_id then some 0
    else (find_id_index rest metadata_id).map (· + 1)

/-- Removal step of `mint_random_nft_secure`: `swap_remove` at the found
index, or no change when the id is absent (the loop just runs off the
end). -/
def remove_from_available (avail : List Nat) (metadata_id : Nat) : List Nat :=
  match find_id_index avail metadata_id with
  | some i => swap_remove avail i
  | none => avail

/-- `mint_random_nft_secure`.  `random_number` stands for the value of
`randomness::u64_range(1, MAX_METADATA_ID + 1)`, whose contract is
`1 ≤ random_number ≤ MAX_METADATA_ID`.  Returns the allocated metadata id
together with the new state. -/
def mint_random_nft_secure (creator to_addr random_number : Nat) (g : GlobalState) :
    Except MoveError (Nat × GlobalState) :=
  if ¬ creator = g.nft.admin then .error (.permissionDenied E_NOT_AUTHORIZED)
  else if ¬ 0 < g.nft.available_count then .error (.invalidState E_COLLECTION_NOT_FOUND)
  else
    let metadata_id := scan_for_metadata_id g.nft.used_metadata_ids random_number
    if metadata_id = 0 then .error (.invalidState E_COLLECTION_NOT_FOUND)
    else
      let nft1 : VelmoraNFTData :=
        { g.nft with
          used_metadata_ids := g.nft.used_metadata_ids.set (metadata_id - 1) true
          available_metadata_ids :=
            remove_from_available g.nft.available_metadata_ids metadata_id
          available_count := g.nft.available_count - 1 }
      match mint_nft_with_metadata_id creator to_addr metadata_id { g with nft := nft1 } with
      | .ok g2 => .ok (metadata_id, g2)
      | .error e => .error e

/-! ### The fallback allocation `mint_random_nft` -/

/-- The byte-fold `random_u64 = random_u64 * 256 + byte` over the sliced
hash bytes, with u64 wrap-around made explicit (8 bytes never wrap). -/
def bytes_to_u64 (bs : List Nat) : Nat :=
  bs.foldl (fun acc b => (acc * 256 + b) % 2 ^ 64) 0

/-- `mint_random_nft`.  `hash` stands for
`sha3_256(bcs(creator_addr) ++ bcs(timestamp))`; the function slices its
first 8 bytes, folds them to `random_u64`, indexes the available list at
`random_u64 % available_count`, removes that slot by writing the last
element over it and popping, marks the id used, and mints. -/
def mint_random_nft (creator to_addr : Nat) (hash : List Nat) (g : GlobalState) :
    Except MoveError (Nat × GlobalState) :=
  if ¬ creator = g.nft.admin then .error (.permissionDenied E_NOT_AUTHORIZED)
  else if ¬ 0 < g.nft.available_count then .error (.invalidState E_COLLECTION_NOT_FOUND)
  else
    let random_index := bytes_to_u64 (hash.take 8) % g.nft.available_count
    let metadata_id := g.nft.available_metadata_ids.getD random_index 0
    let last_index := g.nft.available_count - 1
    let avail0 :=
      if random_index ≠ last_index then
        g.nft.available_metadata_ids.set random_index
          (g.nft.available_metadata_ids.getD last_index 0)
      else g.nft.available_metadata_ids
    let nft1 : VelmoraNFTData :=
      { g.nft with
        used_metadata_ids := g.nft.used_metadata_ids.set (metadata_id - 1) true
        available_metadata_ids := avail0.dropLast
        available_count := g.nft.available_count - 1 }
    match mint_nft_with_metadata_id creator to_addr metadata_id { g with nft := nft1 } with
    | .ok g2 => .ok (metadata_id, g2)
    | .error e => .error e

/-- `mint_random_nft` with the hash pipeline abstracted: `sha3` is the
SHA3-256 function and `bcsAddr`/`bcsU64` the BCS serializers, so the
selection is by construction a function of caller identity, current time
and pool state. -/
def mint_random_nft_hashed (sha3 : List Nat → List Nat) (bcsAddr bcsU64 : Nat → List Nat)
    (creator to_addr now_seconds : Nat) (g : GlobalState) :
    Except MoveError (Nat × GlobalState) :=
  mint_random_nft creator to_addr (sha3 (bcsAddr creator ++ bcsU64 now_seconds)) g

/-! ### Transfer, burn and the view functions -/

/-- First record with the given owner and token name (`token::balance_of`
positivity is `isSome` of this search). -/
def findRecordIdx (records : List AssetRecord) (owner : Nat) (name : List Nat) :
    Option Nat :=
  match records with
  | [] => none
  | a :: rest =>
    if a.owner = owner ∧ a.token_name = name then some 0
    else (findRecordIdx rest owner name).map (· + 1)

def setRecordOwner (records : List AssetRecord) (i to_addr : Nat) : List AssetRecord :=
  match records, i with
  | [], _ => []
  | a :: rest, 0 => { a with owner := to_addr } :: rest
  | a :: rest, n + 1 => a :: setRecordOwner rest n to_addr

/-- `transfer_nft`: moves the token (aborting inside `token::transfer`
when the sender does not hold it), then emits a transfer event when the
creator has initialized (single-instance model: `creator = admin`). -/
def transfer_nft (from_addr to_addr creator : Nat) (token_name : List Nat) (g : GlobalState) :
    Except MoveError GlobalState :=
  match findRecordIdx g.records from_addr token_name with
  | none => .error .tokenAbort
  | some i =>
    if creator = g.nft.admin then
      .ok { nft := { g.nft with transfer_events := g.nft.transfer_events + 1 }
            records := setRecordOwner g.records i to_addr }
    else .ok { g with records := setRecordOwner g.records i to_addr }

/-- `burn_nft`: asserts ownership (`balance_of > 0`), burns the token,
then emits a burn event when the creator has initialized. -/
def burn_nft (owner_addr creator : Nat) (token_name : List Nat) (g : GlobalState) :
    Except MoveError GlobalState :=
  match findRecordIdx g.records owner_addr token_name with
  | none => .error (.permissionDenied E_NOT_AUTHORIZED)
  | some i =>
    if creator = g.nft.admin then
      .ok { nft := { g.nft with burn_events := g.nft.burn_events + 1 }
            records := g.records.eraseIdx i }
    else .ok { g with records := g.records.eraseIdx i }

/-- `admin_burn_nft`: admin check, token existence check
(`balance_of > 0` for the given owner), burn by creator, burn event. -/
def admin_burn_nft (admin_addr owner : Nat) (token_name : List Nat) (g : GlobalState) :
    Except MoveError GlobalState :=
  if ¬ admin_addr = g.nft.admin then .error (.permissionDenied E_NOT_AUTHORIZED)
  else
    match findRecordIdx g.records owner token_name with
    | none => .error (.notFound E_COLLECTION_NOT_FOUND)
    | some i =>
      .ok { nft := { g.nft with burn_events := g.nft.burn_events + 1 }
            records := g.records.eraseIdx i }

/-- View `get_available_count`. -/
def get_available_count (g : GlobalState) : Nat := g.nft.available_count

/-- View `is_metadata_id_used`: invalid ids read as used. -/
def is_metadata_id_used (g : GlobalState) (metadata_id : Nat) : Bool :=
  if metadata_id = 0 ∨ MAX_METADATA_ID < metadata_id then true
  else g.nft.used_metadata_ids.getD (metadata_id - 1) true

/-- Move abort semantics at the call boundary: an `.error` outcome leaves
the persisted state exactly as it was. -/
def commitGlobal (g : GlobalState) : Except MoveError GlobalState → GlobalState
  | .ok g2 => g2
  | .error _ => g

/-! ### One allocation call and sequences of allocation calls -/

/-- One call to either allocation entry point: the non-deterministic
input (`randomness::u64_range` draw, resp. the sha3 hash bytes) is made
an explicit argument of the call. -/
inductive AllocCall where
  | secure (to_addr random_number : Nat)
  | fallback (to_addr : Nat) (hash : List Nat)
  deriving DecidableEq

def runAlloc (caller : Nat) (c : AllocCall) (g : GlobalState) :
    Except MoveError (Nat × GlobalState) :=
  match c with
  | .secure to_addr r => mint_random_nft_secure caller to_addr r g
  | .fallback to_addr h => mint_random_nft caller to_addr h g

/-- A sequence of allocation calls, all succeeding; collects the returned
metadata ids in order. -/
def runCalls (caller : Nat) : List AllocCall → GlobalState →
    Except MoveError (List Nat × GlobalState)
  | [], g => .ok ([], g)
  | c :: cs, g =>
    match runAlloc caller c g with
    | .error e => .error e
    | .ok (m, g1) =>
      match runCalls caller cs g1 with
      | .error e => .error e
      | .ok (ms, g2) => .ok (m :: ms, g2)

/-- One operation of the `velmora_nft` module (the operations named by the
pool-state invariant claim). -/
inductive ModuleOp where
  | opSecure (to_addr random_number : Nat)
  | opFallback (to_addr : Nat) (hash : List Nat)
  | opMint (to_addr : Nat) (name descr uri : List Nat) (rarity skill : Nat)
  | opTransfer (to_addr creator : Nat) (token_name : List Nat)
  | opBurn (creator : Nat) (token_name : List Nat)
  | opAdminBurn (owner : Nat) (token_name : List Nat)
  deriving DecidableEq

def runOp (caller : Nat) (op : ModuleOp) (g : GlobalState) :
    Except MoveError GlobalState :=
  match op with
  | .opSecure to_addr r =>
    match mint_random_nft_secure caller to_addr r g with
    | .ok (_, g2) => .ok g2
    | .error e => .error e
  | .opFallback to_addr h =>
    match mint_random_nft caller to_addr h g with
    | .ok (_, g2) => .ok g2
    | .error e => .error e
  | .opMint to_addr name descr uri rarity skill =>
    mint_nft caller to_addr name descr uri rarity skill g
  | .opTransfer to_addr creator token_name => transfer_nft caller to_addr creator token_name g
  | .opBurn creator token_name => burn_nft caller creator token_name g
  | .opAdminBurn owner token_name => admin_burn_nft caller owner token_name g

/-! ### The pool-state invariant -/

/-- The §3 pool-state invariant: the bitmap has capacity
`MAX_METADATA_ID`; `available_count` equals the size of the available
collection and the number of `false` bitmap entries; the available
collection has no duplicates; and an identifier is available exactly when
it lies in `1..MAX_METADATA_ID` and its bitmap entry is `false` (so every
identifier is in exactly one of the two partitions). -/
def PoolInv (d : VelmoraNFTData) : Prop :=
  d.used_metadata_ids.length = MAX_METADATA_ID ∧
  d.available_metadata_ids.length = d.available_count ∧
  d.available_metadata_ids.Nodup ∧
  (∀ m : Nat, m ∈ d.available_metadata_ids ↔
    (1 ≤ m ∧ m ≤ MAX_METADATA_ID ∧ d.used_metadata_ids.getD (m - 1) true = false)) ∧
  d.used_metadata_ids.count false = d.available_count

/-! ### The `coins_of_aura` module -/

def E_NOT_OWNER : Nat := 1
def DECIMALS : Nat := 8
/-- `INITIAL_PLAYER_AMOUNT = 65000000000` (650 CoA at 8 decimals). -/
def INITIAL_PLAYER_AMOUNT : Nat := 65000000000
/-- Abort code of `object::address_to_object` when the object does not
exist (`EOBJECT_DOES_NOT_EXIST` in the framework's `object.move`); this
is what the unguarded `primary_fungible_store::primary_store` raises for
an account with no primary store. -/
def EOBJECT_DOES_NOT_EXIST : Nat := 2

/-- The fungible-asset ledger: the object owner (the account that ran
`initialize`, holder of the mint/burn/transfer refs), the primary
stores, and the emitted events.  An account has a primary store exactly
when `balances` holds an entry for it; the entry is the store's
balance. -/
structure CoinState where
  owner : Nat
  balances : List (Nat × Nat)
  mint_events : List (Nat × Nat)
  burn_events : List (Nat × Nat)
  reward_events : List (Nat × Nat)
  deriving DecidableEq

/-- Guarded view `primary_fungible_store::balance`: 0 when the account
has no primary store (this is the accessor behind the module's
`balance` view). -/
def coin_balance (s : CoinState) (account : Nat) : Nat :=
  (s.balances.lookup account).getD 0

/-- `primary_fungible_store::primary_store_exists`. -/
def primary_store_exists (balances : List (Nat × Nat)) (account : Nat) : Bool :=
  (balances.lookup account).isSome

/-- `primary_fungible_store::ensure_primary_store_exists`: create an
empty store when the account has none. -/
def ensure_primary_store_exists (balances : List (Nat × Nat)) (account : Nat) :
    List (Nat × Nat) :=
  if primary_store_exists balances account then balances else balances ++ [(account, 0)]

def setBalance : List (Nat × Nat) → Nat → Nat → List (Nat × Nat)
  | [], account, amount => [(account, amount)]
  | (a, v) :: rest, account, amount =>
    if a = account then (a, amount) :: rest
    else (a, v) :: setBalance rest account amount

/-- `mint`: `authorized_borrow_refs` (owner check) first, then
`ensure_primary_store_exists`, mint and deposit, then the mint event. -/
def coin_mint (caller to_addr amount : Nat) (s : CoinState) :
    Except MoveError CoinState :=
  if ¬ caller = s.owner then .error (.permissionDenied E_NOT_OWNER)
  else
    let bal1 := ensure_primary_store_exists s.balances to_addr
    .ok { s with
          balances := setBalance bal1 to_addr ((bal1.lookup to_addr).getD 0 + amount)
          mint_events := s.mint_events ++ [(to_addr, amount)] }

/-- `burn`: owner check first, then the UNGUARDED
`primary_fungible_store::primary_store` for the admin's own wallet
(aborts `not_found` when the admin has no store), then withdraw (which
aborts when the balance is insufficient) and burn, then the burn
event. -/
def coin_burn (caller amount : Nat) (s : CoinState) : Except MoveError CoinState :=
  if ¬ caller = s.owner then .error (.permissionDenied E_NOT_OWNER)
  else
    match s.balances.lookup caller with
    | none => .error (.notFound EOBJECT_DOES_NOT_EXIST)
    | some bal =>
      if bal < amount then .error .insufficientBalance
      else
        .ok { s with
              balances := setBalance s.balances caller (bal - amount)
              burn_events := s.burn_events ++ [(caller, amount)] }

/-- `reward_new_player`: owner check, then the UNGUARDED
`primary_fungible_store::primary_store(player, asset)` — this aborts
`not_found(EOBJECT_DOES_NOT_EXIST)` when the player has no primary
store, which is precisely the fresh-player case.  When the store exists,
read its balance; exactly when it is 0, ensure the store, mint
`INITIAL_PLAYER_AMOUNT` into it and emit a `PlayerLoginReward` event;
otherwise do nothing and return successfully. -/
def reward_new_player (caller player : Nat) (s : CoinState) :
    Except MoveError CoinState :=
  if ¬ caller = s.owner then .error (.permissionDenied E_NOT_OWNER)
  else
    match s.balances.lookup player with
    | none => .error (.notFound EOBJECT_DOES_NOT_EXIST)
    | some current_balance =>
      if current_balance = 0 then
        let bal1 := ensure_primary_store_exists s.balances player
        .ok { s with
              balances := setBalance bal1 player
                ((bal1.lookup player).getD 0 + INITIAL_PLAYER_AMOUNT)
              reward_events := s.reward_events ++ [(player, INITIAL_PLAYER_AMOUNT)] }
      else .ok s

/-- Abort semantics for the coin ledger. -/
def commitCoin (s : CoinState) : Except MoveError CoinState → CoinState
  | .ok s2 => s2
  | .error _ => s

/-! ### List helper lemmas -/

theorem getD_set_eq {α : Type} (l : List α) (i : Nat) (x d : α) (h : i < l.length) :
    (l.set i x).getD i d = x := by
  induction l generalizing i with
  | nil => simp at h
  | cons a t ih =>
    cases i with
    | zero => rfl
    | succ j => exact ih j (by simpa using h)

theorem getD_set_ne {α : Type} (l : List α) (i j : Nat) (x d : α) (h : j ≠ i) :
    (l.set i x).getD j d = l.getD j d := by
  induction l generalizing i j with
  | nil => rfl
  | cons a t ih =>
    cases i with
    | zero =>
      cases j with
      | zero => exact absurd rfl h
      | succ j' => rfl
    | succ i' =>
      cases j with
      | zero => rfl
      | succ j' => exact ih i' j' fun hc => h (by rw [hc])

theorem set_getD_self {α : Type} (l : List α) (i : Nat) (d : α) :
    l.set i (l.getD i d) = l := by
  induction l generalizing i with
  | nil => rfl
  | cons a t ih =>
    cases i with
    | zero => rfl
    | succ j => show a :: t.set j (t.getD j d) = a :: t; rw [ih]

theorem getD_set_true_mono (l : List Bool) (i j : Nat)
    (h : l.getD j true = true) : (l.set i true).getD j true = true := by
  rcases eq_or_ne j i with rfl | hne
  · by_cases hj : j < l.length
    · exact getD_set_eq l j true true hj
    · rw [List.set_eq_of_length_le (by omega)]
      exact h
  · rw [getD_set_ne l i j true true hne]
    exact h

theorem count_false_set_true (l : List Bool) (i : Nat) (h : i < l.length)
    (hf : l.getD i true = false) :
    (l.set i true).count false + 1 = l.count false := by
  induction l generalizing i with
  | nil => simp at h
  | cons a t ih =>
    cases i with
    | zero =>
      have ha : a = false := hf
      subst ha
      simp [List.count_cons]
    | succ j =>
      have h' : j < t.length := by simpa using h
      have := ih j h' hf
      simp only [List.set, List.count_cons]
      omega

theorem exists_false_of_count_pos (l : List Bool) (h : 0 < l.count false) :
    ∃ i, i < l.length ∧ l.getD i true = false := by
  have hmem : false ∈ l := List.count_pos_iff.mp h
  obtain ⟨i, hi, hget⟩ := List.mem_iff_getElem.mp hmem
  exact ⟨i, hi, by rw [List.getD_eq_getElem _ _ hi]; exact hget⟩

theorem getD_replicate (n i : Nat) (b d : Bool) (h : i < n) :
    (List.replicate n b).getD i d = b := by
  induction n generalizing i with
  | zero => omega
  | succ k ih =>
    cases i with
    | zero => rfl
    | succ j => exact ih j (by omega)

/-- A nonempty list is its `dropLast` followed by its last element
(read through `getD`). -/
theorem dropLast_append_getD (l : List Nat) (h : l ≠ []) :
    l.dropLast ++ [l.getD (l.length - 1) 0] = l := by
  induction l with
  | nil => exact absurd rfl h
  | cons a t ih =>
    cases t with
    | nil => rfl
    | cons b u =>
      have hidx : (a :: b :: u).length - 1 = ((b :: u).length - 1) + 1 := by
        simp only [List.length_cons]
        omega
      rw [hidx]
      show a :: ((b :: u).dropLast ++ [(b :: u).getD ((b :: u).length - 1) 0]) = _
      rw [ih (by simp)]

/-- `swap_remove` removes exactly the element at position `i`:
putting it back in front yields a permutation of the original list. -/
theorem swap_remove_cons_perm (l : List Nat) (i : Nat) (h : i < l.length) :
    List.Perm (l.getD i 0 :: swap_remove l i) l := by
  induction l generalizing i with
  | nil => simp at h
  | cons a t ih =>
    cases i with
    | zero =>
      cases t with
      | nil => simp [swap_remove]
      | cons b u =>
        have hidx : (a :: b :: u).length - 1 = ((b :: u).length - 1) + 1 := by
          simp only [List.length_cons]
          omega
        show List.Perm (a :: ((a :: b :: u).set 0
            ((a :: b :: u).getD ((a :: b :: u).length - 1) 0)).dropLast) (a :: b :: u)
        rw [hidx]
        show List.Perm (a :: ((b :: u).getD ((b :: u).length - 1) 0 :: b :: u).dropLast) _
        rw [List.dropLast_cons_of_ne_nil (by simp : (b :: u) ≠ ([] : List Nat))]
        refine List.Perm.cons a ?_
        have h1 := (List.perm_append_singleton
          ((b :: u).getD ((b :: u).length - 1) 0) (b :: u).dropLast).symm
        rw [dropLast_append_getD (b :: u) (by simp)] at h1
        exact h1
    | succ j =>
      have hj : j < t.length := by simpa using h
      have hpos : 0 < t.length := by omega
      have hY : (a :: t).getD ((a :: t).length - 1) 0 = t.getD (t.length - 1) 0 := by
        have hidx : (a :: t).length - 1 = (t.length - 1) + 1 := by
          simp only [List.length_cons]
          omega
        rw [hidx]
        rfl
      have hsr : swap_remove (a :: t) (j + 1) = a :: swap_remove t j := by
        unfold swap_remove
        rw [hY]
        show (a :: t.set j (t.getD (t.length - 1) 0)).dropLast = _
        have hne : t.set j (t.getD (t.length - 1) 0) ≠ [] := by
          have hlen : (t.set j (t.getD (t.length - 1) 0)).length = t.length :=
            List.length_set t j _
          intro hc
          rw [hc] at hlen
          simp at hlen
          omega
        rw [List.dropLast_cons_of_ne_nil hne]
      rw [hsr]
      show List.Perm (t.getD j 0 :: a :: swap_remove t j) (a :: t)
      exact ((List.Perm.swap a (t.getD j 0) _).trans ((ih j hj).cons a))

theorem find_id_index_some (l : List Nat) (m : Nat) (hm : m ∈ l) :
    ∃ i, find_id_index l m = some i ∧ i < l.length ∧ l.getD i 0 = m := by
  induction l with
  | nil => simp at hm
  | cons a t ih =>
    by_cases ha : a = m
    · exact ⟨0, by simp [find_id_index, ha], by simp, by simp [ha]⟩
    · have hm' : m ∈ t := by
        rcases List.mem_cons.mp hm with hc | hc
        · exact absurd hc.symm ha
        · exact hc
      obtain ⟨i, hfind, hlt, hget⟩ := ih hm'
      refine ⟨i + 1, ?_, by simpa using hlt, by simpa using hget⟩
      simp [find_id_index, ha, hfind]

/-! ### Properties of the circular scan -/

/-- The rotation `k ↦ (r + k - 1) % N` hits every index below
`N = MAX_METADATA_ID` for some `k < N` (for `r ≥ 1`, as guaranteed by
`randomness::u64_range(1, N + 1)`). -/
theorem exists_attempt (r i : Nat) (hr : 1 ≤ r) (hi : i < MAX_METADATA_ID) :
    ∃ k, k < MAX_METADATA_ID ∧ (r + k - 1) % MAX_METADATA_ID = i := by
  unfold MAX_METADATA_ID at hi ⊢
  exact ⟨(i + 1200 - (r - 1) % 1200) % 1200, by omega, by omega⟩

/-- If some attempt below the remaining fuel would hit an unused entry,
the scan stops at the least such attempt and returns its check id. -/
theorem scanGo_finds (used : List Bool) (r : Nat) :
    ∀ fuel a, (∃ k, a ≤ k ∧ k < a + fuel ∧
        used.getD ((r + k - 1) % MAX_METADATA_ID) true = false) →
      ∃ k, a ≤ k ∧ k < a + fuel ∧
        used.getD ((r + k - 1) % MAX_METADATA_ID) true = false ∧
        (∀ j, a ≤ j → j < k → used.getD ((r + j - 1) % MAX_METADATA_ID) true = true) ∧
        scanGo used r a fuel = (r + k - 1) % MAX_METADATA_ID + 1 := by
  intro fuel
  induction fuel with
  | zero =>
    intro a hex
    obtain ⟨k, h1, h2, _⟩ := hex
    omega
  | succ f ih =>
    intro a hex
    have hbody : scanGo used r a (f + 1) =
        if used.getD ((r + a - 1) % MAX_METADATA_ID + 1 - 1) true = false
        then (r + a - 1) % MAX_METADATA_ID + 1 else scanGo used r (a + 1) f := rfl
    rw [Nat.add_sub_cancel] at hbody
    by_cases ha : used.getD ((r + a - 1) % MAX_METADATA_ID) true = false
    · refine ⟨a, le_refl a, by omega, ha, fun j hj1 hj2 => by omega, ?_⟩
      rw [hbody, if_pos ha]
    · obtain ⟨k, hk1, hk2, hk3⟩ := hex
      have hka : k ≠ a := fun hc => ha (hc ▸ hk3)
      obtain ⟨m, h1, h2, h3, h4, h5⟩ := ih (a + 1) ⟨k, by omega, by omega, hk3⟩
      refine ⟨m, by omega, by omega, h3, ?_, ?_⟩
      · intro j hj1 hj2
        rcases Nat.eq_or_lt_of_le hj1 with hj | hj
        · rw [← hj]
          revert ha
          cases used.getD ((r + a - 1) % MAX_METADATA_ID) true <;> simp
        · exact h4 j (by omega) hj2
      · rw [hbody, if_neg ha]
        exact h5

/-- A nonzero scan result is a valid, currently unused metadata id. -/
theorem scanGo_result (used : List Bool) (r : Nat) :
    ∀ fuel a m, scanGo used r a fuel = m → m ≠ 0 →
      1 ≤ m ∧ m ≤ MAX_METADATA_ID ∧ used.getD (m - 1) true = false := by
  intro fuel
  induction fuel with
  | zero =>
    intro a m h hm
    exact absurd h.symm hm
  | succ f ih =>
    intro a m h hm
    by_cases ha : used.getD ((r + a - 1) % MAX_METADATA_ID + 1 - 1) true = false
    · rw [show scanGo used r a (f + 1) = (r + a - 1) % MAX_METADATA_ID + 1 from
        by simp only [scanGo, if_pos ha]] at h
      have hlt : (r + a - 1) % MAX_METADATA_ID < MAX_METADATA_ID :=
        Nat.mod_lt _ (by norm_num [MAX_METADATA_ID])
      subst h
      refine ⟨by omega, by omega, ?_⟩
      simpa using ha
    · rw [show scanGo used r a (f + 1) = scanGo used r (a + 1) f from
        by simp only [scanGo, if_neg ha]] at h
      exact ih (a + 1) m h hm

/-- Under the §3 invariant with a nonempty pool and an in-range draw, the
scan succeeds. -/
theorem scan_succeeds (d : VelmoraNFTData) (r : Nat) (hinv : PoolInv d)
    (hc : 0 < d.available_count) (hr1 : 1 ≤ r) :
    ∃ k, k < MAX_METADATA_ID ∧
      scan_for_metadata_id d.used_metadata_ids r = (r + k - 1) % MAX_METADATA_ID + 1 ∧
      d.used_metadata_ids.getD ((r + k - 1) % MAX_METADATA_ID) true = false ∧
      (∀ j, j < k → d.used_metadata_ids.getD ((r + j - 1) % MAX_METADATA_ID) true = true) := by
  obtain ⟨hlen, _, _, _, hcount⟩ := hinv
  have hpos : 0 < d.used_metadata_ids.count false := by omega
  obtain ⟨i, hi, hfalse⟩ := exists_false_of_count_pos _ hpos
  rw [hlen] at hi
  obtain ⟨k0, hk0, hk0eq⟩ := exists_attempt r i hr1 hi
  have hex : ∃ k, 0 ≤ k ∧ k < 0 + MAX_METADATA_ID ∧
      d.used_metadata_ids.getD ((r + k - 1) % MAX_METADATA_ID) true = false :=
    ⟨k0, by omega, by omega, by rw [hk0eq]; exact hfalse⟩
  obtain ⟨k, _, h2, h3, h4, h5⟩ := scanGo_finds d.used_metadata_ids r MAX_METADATA_ID 0 hex
  exact ⟨k, by omega, h5, h3, fun j hj => h4 j (by omega) hj⟩

/-- The scan of `scan_for_metadata_id` never returns an id larger than
the capacity, and a nonzero result is unused. -/
theorem scan_result_valid (used : List Bool) (r m : Nat)
    (h : scan_for_metadata_id used r = m) (hm : m ≠ 0) :
    1 ≤ m ∧ m ≤ MAX_METADATA_ID ∧ used.getD (m - 1) true = false :=
  scanGo_result used r MAX_METADATA_ID 0 m h hm

/-! ### Success equations for the two allocation entry points -/

theorem validate_ipfs_uri_base (suffix : List Nat) :
    validate_ipfs_uri (ipfsBaseBytes ++ suffix) = true := by
  have hlen : ipfsPrefixBytes.length ≤ ipfsBaseBytes.length := by decide
  have htake : (ipfsBaseBytes ++ suffix).take ipfsPrefixBytes.length = ipfsPrefixBytes := by
    rw [List.take_append_of_le_length hlen]
    decide
  have h1 : sliceMatches (ipfsBaseBytes ++ suffix) ipfsPrefixBytes = true := by
    unfold sliceMatches
    rw [if_pos (by rw [List.length_append]; omega)]
    simp [htake]
  unfold validate_ipfs_uri
  rw [h1]
  simp

/-- The token record created when allocating `metadata_id` to `to_addr`. -/
def allocRecord (to_addr metadata_id : Nat) : AssetRecord :=
  { owner := to_addr
    token_name := auraNameBytes ++ u64_to_string metadata_id
    rarity := metadata_id % 100 + 1
    skill := metadata_id * 7 % 100 + 1
    uri := ipfsBaseBytes ++ u64_to_string metadata_id ++ jsonExtBytes }

/-- `mint_nft_with_metadata_id` always succeeds for the admin: the derived
rarity and skill lie in `[1, 100]` and the built URI starts with
`ipfs://`. -/
theorem mint_with_id_ok (creator to_addr m : Nat) (g : GlobalState)
    (h : creator = g.nft.admin) :
    mint_nft_with_metadata_id creator to_addr m g =
      .ok { nft := { g.nft with mint_events := g.nft.mint_events + 1 }
            records := g.records ++ [allocRecord to_addr m] } := by
  have hr : m % 100 + 1 ≤ MAX_RARITY := by unfold MAX_RARITY; omega
  have hs : m * 7 % 100 + 1 ≤ MAX_SKILL := by unfold MAX_SKILL; omega
  have hu : validate_ipfs_uri (ipfsBaseBytes ++ u64_to_string m ++ jsonExtBytes) = true := by
    rw [List.append_assoc]
    exact validate_ipfs_uri_base _
  unfold mint_nft_with_metadata_id mint_nft allocRecord
  rw [if_neg (not_not_intro hr), if_neg (not_not_intro hs),
    if_neg (by rw [hu]; exact not_not_intro rfl), if_neg (not_not_intro h)]

/-- The state produced by a successful `mint_random_nft_secure` that
allocated `m`. -/
def secure_result (g : GlobalState) (to_addr m : Nat) : GlobalState :=
  { nft := { g.nft with
             used_metadata_ids := g.nft.used_metadata_ids.set (m - 1) true
             available_metadata_ids := remove_from_available g.nft.available_metadata_ids m
             available_count := g.nft.available_count - 1
             mint_events := g.nft.mint_events + 1 }
    records := g.records ++ [allocRecord to_addr m] }

theorem secure_ok_eq (caller to_addr r : Nat) (g : GlobalState)
    (hA : caller = g.nft.admin) (hC : 0 < g.nft.available_count)
    (hz : scan_for_metadata_id g.nft.used_metadata_ids r ≠ 0) :
    mint_random_nft_secure caller to_addr r g =
      .ok (scan_for_metadata_id g.nft.used_metadata_ids r,
        secure_result g to_addr (scan_for_metadata_id g.nft.used_metadata_ids r)) := by
  unfold mint_random_nft_secure
  rw [if_neg (not_not_intro hA), if_neg (not_not_intro hC)]
  simp only [hz, if_false, ite_false]
  rw [mint_with_id_ok caller to_addr (scan_for_metadata_id g.nft.used_metadata_ids r)]
  · rfl
  · exact hA

/-- The available list after the fallback removal step, exactly as the
source writes it (conditional overwrite, then `pop_back`). -/
def fallback_avail (avail : List Nat) (idx cnt : Nat) : List Nat :=
  (if idx ≠ cnt - 1 then avail.set idx (avail.getD (cnt - 1) 0) else avail).dropLast

/-- The state produced by a successful `mint_random_nft` that allocated
the id at index `idx`. -/
def fallback_result (g : GlobalState) (to_addr idx : Nat) : GlobalState :=
  { nft := { g.nft with
             used_metadata_ids := g.nft.used_metadata_ids.set
               (g.nft.available_metadata_ids.getD idx 0 - 1) true
             available_metadata_ids :=
               fallback_avail g.nft.available_metadata_ids idx g.nft.available_count
             available_count := g.nft.available_count - 1
             mint_events := g.nft.mint_events + 1 }
    records := g.records ++
      [allocRecord to_addr (g.nft.available_metadata_ids.getD idx 0)] }

theorem fallback_ok_eq (caller to_addr : Nat) (hash : List Nat) (g : GlobalState)
    (hA : caller = g.nft.admin) (hC : 0 < g.nft.available_count) :
    mint_random_nft caller to_addr hash g =
      .ok (g.nft.available_metadata_ids.getD
             (bytes_to_u64 (hash.take 8) % g.nft.available_count) 0,
           fallback_result g to_addr (bytes_to_u64 (hash.take 8) % g.nft.available_count)) := by
  unfold mint_random_nft
  rw [if_neg (not_not_intro hA), if_neg (not_not_intro hC)]
  simp only [ne_eq]
  rw [mint_with_id_ok caller to_addr
    (g.nft.available_metadata_ids.getD (bytes_to_u64 (List.take 8 hash) % g.nft.available_count) 0)]
  · rfl
  · exact hA

/-- On a well-formed pool the fallback removal is a `swap_remove`. -/
theorem fallback_avail_eq_swap_remove (avail : List Nat) (idx cnt : Nat)
    (hlen : avail.length = cnt) :
    fallback_avail avail idx cnt = swap_remove avail idx := by
  unfold fallback_avail swap_remove
  by_cases hlast : idx = cnt - 1
  · rw [if_neg (not_not_intro hlast), hlast, ← hlen, set_getD_self]
  · rw [if_pos hlast, hlen]

/-! ### Preservation of the pool invariant by one removal -/

theorem PoolInv_step (d d' : VelmoraNFTData) (idx : Nat) (hinv : PoolInv d)
    (hidx : idx < d.available_metadata_ids.length)
    (hused : d'.used_metadata_ids =
      d.used_metadata_ids.set (d.available_metadata_ids.getD idx 0 - 1) true)
    (havail : d'.available_metadata_ids = swap_remove d.available_metadata_ids idx)
    (hcount : d'.available_count = d.available_count - 1) :
    PoolInv d' := by
  obtain ⟨hlen, hlenav, hnodup, hiff, hcount0⟩ := hinv
  have hxmem : d.available_metadata_ids.getD idx 0 ∈ d.available_metadata_ids := by
    rw [List.getD_eq_getElem _ _ hidx]
    exact List.getElem_mem hidx
  obtain ⟨hx1, hx2, hxfalse⟩ := (hiff _).mp hxmem
  have hperm := swap_remove_cons_perm d.available_metadata_ids idx hidx
  have hlen' : (swap_remove d.available_metadata_ids idx).length + 1 =
      d.available_metadata_ids.length := by
    have := hperm.length_eq
    simpa using this
  have hnodup' : (d.available_metadata_ids.getD idx 0 ::
      swap_remove d.available_metadata_ids idx).Nodup := hperm.nodup_iff.mpr hnodup
  have hxnotin := (List.nodup_cons.mp hnodup').1
  have hsrnodup := (List.nodup_cons.mp hnodup').2
  have hmem' : ∀ a, a ∈ swap_remove d.available_metadata_ids idx ↔
      (a ∈ d.available_metadata_ids ∧ a ≠ d.available_metadata_ids.getD idx 0) := by
    intro a
    constructor
    · intro ha
      refine ⟨hperm.mem_iff.mp (List.mem_cons_of_mem _ ha), fun hax => ?_⟩
      exact hxnotin (hax ▸ ha)
    · rintro ⟨ha, hax⟩
      rcases List.mem_cons.mp (hperm.mem_iff.mpr ha) with hc | hc
      · exact absurd hc hax
      · exact hc
  refine ⟨?_, ?_, ?_, ?_, ?_⟩
  · rw [hused, List.length_set]
    exact hlen
  · rw [havail, hcount]
    omega
  · rw [havail]
    exact hsrnodup
  · intro a
    rw [havail, hused, hmem' a]
    constructor
    · rintro ⟨ha, hax⟩
      obtain ⟨a1, a2, afalse⟩ := (hiff a).mp ha
      refine ⟨a1, a2, ?_⟩
      rw [getD_set_ne _ _ _ _ _
        (by omega : a - 1 ≠ d.available_metadata_ids.getD idx 0 - 1)]
      exact afalse
    · rintro ⟨a1, a2, afalse⟩
      by_cases hax : a = d.available_metadata_ids.getD idx 0
      · rw [hax, getD_set_eq _ _ _ _
          (by omega : d.available_metadata_ids.getD idx 0 - 1 <
            d.used_metadata_ids.length)] at afalse
        exact absurd afalse (by decide)
      · refine ⟨(hiff a).mpr ⟨a1, a2, ?_⟩, hax⟩
        rw [getD_set_ne _ _ _ _ _
          (by omega : a - 1 ≠ d.available_metadata_ids.getD idx 0 - 1)] at afalse
        exact afalse
  · rw [hused, hcount]
    have hxlt : d.available_metadata_ids.getD idx 0 - 1 < d.used_metadata_ids.length := by
      omega
    have := count_false_set_true d.used_metadata_ids _ hxlt hxfalse
    omega

/-! ### Step specifications for the allocation entry points -/

theorem secure_step_spec (caller to_addr r : Nat) (g : GlobalState) (m : Nat)
    (g' : GlobalState) (hinv : PoolInv g.nft)
    (h : mint_random_nft_secure caller to_addr r g = .ok (m, g')) :
    caller = g.nft.admin ∧ 0 < g.nft.available_count ∧
    1 ≤ m ∧ m ≤ MAX_METADATA_ID ∧
    g.nft.used_metadata_ids.getD (m - 1) true = false ∧
    g'.nft.used_metadata_ids = g.nft.used_metadata_ids.set (m - 1) true ∧
    g'.nft.available_count = g.nft.available_count - 1 ∧
    g'.nft.admin = g.nft.admin ∧ PoolInv g'.nft := by
  by_cases hA : caller = g.nft.admin
  swap
  · unfold mint_random_nft_secure at h
    rw [if_pos hA] at h
    simp at h
  by_cases hC : 0 < g.nft.available_count
  swap
  · unfold mint_random_nft_secure at h
    rw [if_neg (not_not_intro hA), if_pos hC] at h
    simp at h
  by_cases hz : scan_for_metadata_id g.nft.used_metadata_ids r = 0
  · unfold mint_random_nft_secure at h
    rw [if_neg (not_not_intro hA), if_neg (not_not_intro hC)] at h
    simp only [hz, if_true, ite_true] at h
    simp at h
  · rw [secure_ok_eq caller to_addr r g hA hC hz] at h
    simp only [Except.ok.injEq, Prod.mk.injEq] at h
    obtain ⟨rfl, rfl⟩ := h
    obtain ⟨hs1, hs2, hs3⟩ := scan_result_valid g.nft.used_metadata_ids r _ rfl hz
    have hmem : scan_for_metadata_id g.nft.used_metadata_ids r ∈
        g.nft.available_metadata_ids := (hinv.2.2.2.1 _).mpr ⟨hs1, hs2, hs3⟩
    obtain ⟨idx, hfind, hlt, hget⟩ := find_id_index_some _ _ hmem
    refine ⟨hA, hC, hs1, hs2, hs3, rfl, rfl, rfl, ?_⟩
    refine PoolInv_step g.nft _ idx hinv hlt ?_ ?_ rfl
    · show g.nft.used_metadata_ids.set
        (scan_for_metadata_id g.nft.used_metadata_ids r - 1) true = _
      rw [hget]
    · show remove_from_available g.nft.available_metadata_ids
        (scan_for_metadata_id g.nft.used_metadata_ids r) = _
      unfold remove_from_available
      rw [hfind]

theorem fallback_step_spec (caller to_addr : Nat) (hash : List Nat) (g : GlobalState)
    (m : Nat) (g' : GlobalState) (hinv : PoolInv g.nft)
    (h : mint_random_nft caller to_addr hash g = .ok (m, g')) :
    caller = g.nft.admin ∧ 0 < g.nft.available_count ∧
    1 ≤ m ∧ m ≤ MAX_METADATA_ID ∧
    g.nft.used_metadata_ids.getD (m - 1) true = false ∧
    g'.nft.used_metadata_ids = g.nft.used_metadata_ids.set (m - 1) true ∧
    g'.nft.available_count = g.nft.available_count - 1 ∧
    g'.nft.admin = g.nft.admin ∧ PoolInv g'.nft := by
  by_cases hA : caller = g.nft.admin
  swap
  · unfold mint_random_nft at h
    rw [if_pos hA] at h
    simp at h
  by_cases hC : 0 < g.nft.available_count
  swap
  · unfold mint_random_nft at h
    rw [if_neg (not_not_intro hA), if_pos hC] at h
    simp at h
  rw [fallback_ok_eq caller to_addr hash g hA hC] at h
  simp only [Except.ok.injEq, Prod.mk.injEq] at h
  obtain ⟨rfl, rfl⟩ := h
  have hidx : bytes_to_u64 (hash.take 8) % g.nft.available_count <
      g.nft.available_count := Nat.mod_lt _ hC
  have hlt : bytes_to_u64 (hash.take 8) % g.nft.available_count <
      g.nft.available_metadata_ids.length := by
    rw [hinv.2.1]
    exact hidx
  have hmem : g.nft.available_metadata_ids.getD
      (bytes_to_u64 (hash.take 8) % g.nft.available_count) 0 ∈
      g.nft.available_metadata_ids := by
    rw [List.getD_eq_getElem _ _ hlt]
    exact List.getElem_mem hlt
  obtain ⟨hm1, hm2, hm3⟩ := (hinv.2.2.2.1 _).mp hmem
  refine ⟨hA, hC, hm1, hm2, hm3, rfl, rfl, rfl, ?_⟩
  refine PoolInv_step g.nft _ (bytes_to_u64 (hash.take 8) % g.nft.available_count)
    hinv hlt rfl ?_ rfl
  show fallback_avail g.nft.available_metadata_ids _ g.nft.available_count = _
  exact fallback_avail_eq_swap_remove _ _ _ hinv.2.1

/-- A uniform view of one successful allocation call. -/
theorem alloc_step_spec (caller : Nat) (c : AllocCall) (g : GlobalState) (m : Nat)
    (g1 : GlobalState) (hinv : PoolInv g.nft) (h : runAlloc caller c g = .ok (m, g1)) :
    caller = g.nft.admin ∧ 0 < g.nft.available_count ∧ 1 ≤ m ∧ m ≤ MAX_METADATA_ID ∧
    g.nft.used_metadata_ids.getD (m - 1) true = false ∧
    g1.nft.used_metadata_ids = g.nft.used_metadata_ids.set (m - 1) true ∧
    g1.nft.available_count = g.nft.available_count - 1 ∧
    g1.nft.admin = g.nft.admin ∧ PoolInv g1.nft := by
  cases c with
  | secure t r => exact secure_step_spec caller t r g m g1 hinv h
  | fallback t hs => exact fallback_step_spec caller t hs g m g1 hinv h

/-- Failure equations when the pool is exhausted. -/
theorem secure_exhausted_eq (caller to_addr r : Nat) (g : GlobalState)
    (hA : caller = g.nft.admin) (hC : g.nft.available_count = 0) :
    mint_random_nft_secure caller to_addr r g =
      .error (.invalidState E_COLLECTION_NOT_FOUND) := by
  unfold mint_random_nft_secure
  rw [if_neg (not_not_intro hA), if_pos (by omega)]

theorem fallback_exhausted_eq (caller to_addr : Nat) (hash : List Nat) (g : GlobalState)
    (hA : caller = g.nft.admin) (hC : g.nft.available_count = 0) :
    mint_random_nft caller to_addr hash g =
      .error (.invalidState E_COLLECTION_NOT_FOUND) := by
  unfold mint_random_nft
  rw [if_neg (not_not_intro hA), if_pos (by omega)]

/-! ### The invariant at the initial and the exhausted state -/

theorem init_nft_data_poolInv (admin_addr : Nat) : PoolInv (init_nft_data admin_addr) := by
  refine ⟨List.length_replicate _ _, by simp [init_nft_data], ?_, ?_, ?_⟩
  · exact List.nodup_range' 1 MAX_METADATA_ID 1 (by omega)
  · intro m
    show m ∈ List.range' 1 MAX_METADATA_ID ↔ _
    rw [List.mem_range'_1]
    constructor
    · rintro ⟨h1, h2⟩
      exact ⟨h1, by omega, getD_replicate _ _ _ _ (by omega)⟩
    · rintro ⟨h1, h2, _⟩
      exact ⟨h1, by omega⟩
  · show (List.replicate MAX_METADATA_ID false).count false = MAX_METADATA_ID
    exact List.count_replicate_self _ _

/-- A fully exhausted pool (every id used, none available). -/
def exhausted_nft_data (admin_addr : Nat) : VelmoraNFTData :=
  { admin := admin_addr
    used_metadata_ids := List.replicate MAX_METADATA_ID true
    available_metadata_ids := []
    available_count := 0
    mint_events := 0
    transfer_events := 0
    burn_events := 0 }

theorem exhausted_poolInv (admin_addr : Nat) : PoolInv (exhausted_nft_data admin_addr) := by
  refine ⟨List.length_replicate _ _, rfl, List.nodup_nil, ?_, ?_⟩
  · intro m
    show m ∈ ([] : List Nat) ↔ 1 ≤ m ∧ m ≤ MAX_METADATA_ID ∧
      (List.replicate MAX_METADATA_ID true).getD (m - 1) true = false
    constructor
    · intro hmem
      simp at hmem
    · rintro ⟨h1, h2, h3⟩
      rw [getD_replicate _ _ _ _ (by omega)] at h3
      exact absurd h3 (by decide)
  · show (List.replicate MAX_METADATA_ID true).count false = 0
    induction MAX_METADATA_ID with
    | zero => rfl
    | succ k ih => simpa [List.replicate, List.count_cons] using ih

/-! ### Sequences of allocations: distinctness and monotone use -/

theorem runCalls_spec (caller : Nat) :
    ∀ (cs : List AllocCall) (g : GlobalState) (ids : List Nat) (g' : GlobalState),
      PoolInv g.nft → runCalls caller cs g = .ok (ids, g') →
      PoolInv g'.nft ∧ ids.Nodup ∧
      (∀ m ∈ ids, 1 ≤ m ∧ m ≤ MAX_METADATA_ID ∧
        g.nft.used_metadata_ids.getD (m - 1) true = false ∧
        g'.nft.used_metadata_ids.getD (m - 1) true = true) ∧
      (∀ j, g.nft.used_metadata_ids.getD j true = true →
        g'.nft.used_metadata_ids.getD j true = true) := by
  intro cs
  induction cs with
  | nil =>
    intro g ids g' hinv h
    unfold runCalls at h
    simp only [Except.ok.injEq, Prod.mk.injEq] at h
    obtain ⟨rfl, rfl⟩ := h
    exact ⟨hinv, List.nodup_nil, by simp, fun j hj => hj⟩
  | cons c cs ih =>
    intro g ids g' hinv h
    cases hstep : runAlloc caller c g with
    | error e =>
      have hcomp : runCalls caller (c :: cs) g = .error e := by
        unfold runCalls
        rw [hstep]
      rw [hcomp] at h
      simp at h
    | ok p =>
      obtain ⟨m, g1⟩ := p
      have hcomp : runCalls caller (c :: cs) g =
          (match runCalls caller cs g1 with
           | .error e => .error e
           | .ok (ms, g2) => .ok (m :: ms, g2)) := by
        conv_lhs => unfold runCalls
        rw [hstep]
      rw [hcomp] at h
      cases hrest : runCalls caller cs g1 with
      | error e =>
        rw [hrest] at h
        simp at h
      | ok q =>
        obtain ⟨ms, g2⟩ := q
        rw [hrest] at h
        simp only [Except.ok.injEq, Prod.mk.injEq] at h
        obtain ⟨rfl, rfl⟩ := h
        obtain ⟨hA, hC, h1, h2, h3, hset, hcnt, hadm, hinv1⟩ :=
          alloc_step_spec caller c g m g1 hinv hstep
        obtain ⟨hinv2, hnodup, hforall, hmono⟩ := ih g1 ms g2 hinv1 hrest
        have hmlt : m - 1 < g.nft.used_metadata_ids.length := by
          have := hinv.1
          omega
        have hg1 : g1.nft.used_metadata_ids.getD (m - 1) true = true := by
          rw [hset]
          exact getD_set_eq _ _ _ _ hmlt
        refine ⟨hinv2, ?_, ?_, ?_⟩
        · rw [List.nodup_cons]
          refine ⟨?_, hnodup⟩
          intro hmem
          obtain ⟨_, _, hfalse1, _⟩ := hforall m hmem
          rw [hg1] at hfalse1
          exact absurd hfalse1 (by decide)
        · intro a ha
          rcases List.mem_cons.mp ha with rfl | ha2
          · exact ⟨h1, h2, h3, hmono (a - 1) hg1⟩
          · obtain ⟨a1, a2, afalse, atrue⟩ := hforall a ha2
            refine ⟨a1, a2, ?_, atrue⟩
            by_contra hcon
            have htrue : g.nft.used_metadata_ids.getD (a - 1) true = true := by
              cases hval : g.nft.used_metadata_ids.getD (a - 1) true
              · exact absurd hval hcon
              · rfl
            have hg1a : g1.nft.used_metadata_ids.getD (a - 1) true = true := by
              rw [hset]
              exact getD_set_true_mono _ _ _ htrue
            rw [hg1a] at afalse
            exact absurd afalse (by decide)
        · intro j hj
          refine hmono j ?_
          rw [hset]
          exact getD_set_true_mono _ _ _ hj

/-! ### Frame lemmas: the registry operations do not touch the pool -/

theorem mint_nft_ok_shape (creator t : Nat) (n d u : List Nat) (ra sk : Nat)
    (g g' : GlobalState) (h : mint_nft creator t n d u ra sk g = .ok g') :
    g' = { nft := { g.nft with mint_events := g.nft.mint_events + 1 }
           records := g.records ++
             [{ owner := t, token_name := n, rarity := ra, skill := sk, uri := u }] } := by
  unfold mint_nft at h
  by_cases h1 : ra ≤ MAX_RARITY
  swap
  · rw [if_pos h1] at h
    exact Except.noConfusion h
  rw [if_neg (not_not_intro h1)] at h
  by_cases h2 : sk ≤ MAX_SKILL
  swap
  · rw [if_pos h2] at h
    exact Except.noConfusion h
  rw [if_neg (not_not_intro h2)] at h
  by_cases h3 : validate_ipfs_uri u = true
  swap
  · rw [if_pos h3] at h
    exact Except.noConfusion h
  rw [if_neg (not_not_intro h3)] at h
  by_cases h4 : creator = g.nft.admin
  swap
  · rw [if_pos h4] at h
    exact Except.noConfusion h
  rw [if_neg (not_not_intro h4)] at h
  simp only [Except.ok.injEq] at h
  exact h.symm

theorem transfer_nft_ok_pool (f t c : Nat) (nm : List Nat) (g g' : GlobalState)
    (h : transfer_nft f t c nm g = .ok g') :
    g'.nft.used_metadata_ids = g.nft.used_metadata_ids ∧
    g'.nft.available_metadata_ids = g.nft.available_metadata_ids ∧
    g'.nft.available_count = g.nft.available_count ∧
    g'.nft.admin = g.nft.admin := by
  unfold transfer_nft at h
  cases hf : findRecordIdx g.records f nm with
  | none =>
    rw [hf] at h
    simp at h
  | some i =>
    rw [hf] at h
    simp only [] at h
    split_ifs at h
    · simp only [Except.ok.injEq] at h
      rw [← h]
      exact ⟨rfl, rfl, rfl, rfl⟩
    · simp only [Except.ok.injEq] at h
      rw [← h]
      exact ⟨rfl, rfl, rfl, rfl⟩

theorem burn_nft_ok_pool (ow c : Nat) (nm : List Nat) (g g' : GlobalState)
    (h : burn_nft ow c nm g = .ok g') :
    g'.nft.used_metadata_ids = g.nft.used_metadata_ids ∧
    g'.nft.available_metadata_ids = g.nft.available_metadata_ids ∧
    g'.nft.available_count = g.nft.available_count ∧
    g'.nft.admin = g.nft.admin := by
  unfold burn_nft at h
  cases hf : findRecordIdx g.records ow nm with
  | none =>
    rw [hf] at h
    simp at h
  | some i =>
    rw [hf] at h
    simp only [] at h
    split_ifs at h
    · simp only [Except.ok.injEq] at h
      rw [← h]
      exact ⟨rfl, rfl, rfl, rfl⟩
    · simp only [Except.ok.injEq] at h
      rw [← h]
      exact ⟨rfl, rfl, rfl, rfl⟩

theorem admin_burn_nft_ok_pool (adm ow : Nat) (nm : List Nat) (g g' : GlobalState)
    (h : admin_burn_nft adm ow nm g = .ok g') :
    g'.nft.used_metadata_ids = g.nft.used_metadata_ids ∧
    g'.nft.available_metadata_ids = g.nft.available_metadata_ids ∧
    g'.nft.available_count = g.nft.available_count ∧
    g'.nft.admin = g.nft.admin := by
  unfold admin_burn_nft at h
  by_cases hadm : adm = g.nft.admin
  · rw [if_neg (not_not_intro hadm)] at h
    cases hf : findRecordIdx g.records ow nm with
    | none =>
      rw [hf] at h
      simp at h
    | some i =>
      rw [hf] at h
      simp only [Except.ok.injEq] at h
      rw [← h]
      exact ⟨rfl, rfl, rfl, rfl⟩
  · rw [if_pos hadm] at h
    simp at h

/-- `PoolInv` only reads the four pool fields. -/
theorem PoolInv_of_fields (d d' : VelmoraNFTData)
    (h1 : d'.used_metadata_ids = d.used_metadata_ids)
    (h2 : d'.available_metadata_ids = d.available_metadata_ids)
    (h3 : d'.available_count = d.available_count)
    (hinv : PoolInv d) : PoolInv d' := by
  unfold PoolInv at hinv ⊢
  rw [h1, h2, h3]
  exact hinv

/-! ### Coin-ledger helper lemmas -/

theorem lookup_setBalance_self (l : List (Nat × Nat)) (a v : Nat) :
    ((setBalance l a v).lookup a).getD 0 = v := by
  induction l with
  | nil => simp [setBalance, List.lookup]
  | cons p t ih =>
    obtain ⟨b, w⟩ := p
    by_cases hb : b = a
    · simp [setBalance, hb, List.lookup]
    · simp only [setBalance, if_neg hb, List.lookup]
      have hab : (a == b) = false := by
        simp only [beq_eq_false_iff_ne, ne_eq]
        exact fun hc => hb hc.symm
      rw [hab]
      exact ih

theorem coin_balance_after_set (s : CoinState)
    (me be re : List (Nat × Nat)) (a v : Nat) :
    coin_balance { owner := s.owner, balances := setBalance s.balances a v,
                   mint_events := me, burn_events := be, reward_events := re } a = v :=
  lookup_setBalance_self s.balances a v

/-- The spec name `PoolExhausted` denotes the abort
`error::invalid_state(E_COLLECTION_NOT_FOUND)` raised by both allocation
entry points when `available_count` is zero. -/
def poolExhaustedError : MoveError := .invalidState E_COLLECTION_NOT_FOUND

/-- Global state right after `initialize` (no tokens minted yet). -/
def init_global (admin_addr : Nat) : GlobalState :=
  { nft := init_nft_data admin_addr, records := [] }

/-! ### The claims -/

/-- Claim C1: for every sequence of `mint_random_nft_secure` /
`mint_random_nft` calls that all succeed (success requires
`availableCount > 0`) from a state satisfying the pool invariant, the
returned metadata identifiers are pairwise distinct and each is still
reported used at the end of the run; moreover, immediately after any
single successful call, `is_metadata_id_used` returns `true` for the
identifier that call returned (and the call indeed required a positive
available count). -/
theorem C1_alloc_ids_distinct_and_used (caller : Nat) (cs : List AllocCall)
    (g g' : GlobalState) (ids : List Nat) (hinv : PoolInv g.nft)
    (h : runCalls caller cs g = .ok (ids, g')) :
    ids.Nodup ∧
    (∀ m ∈ ids, is_metadata_id_used g' m = true) ∧
    (∀ (c : AllocCall) (g1 g2 : GlobalState) (m : Nat),
      PoolInv g1.nft → runAlloc caller c g1 = .ok (m, g2) →
      0 < get_available_count g1 ∧ is_metadata_id_used g2 m = true) := by
  obtain ⟨hinvEnd, hnodup, hforall, hmono⟩ := runCalls_spec caller cs g ids g' hinv h
  refine ⟨hnodup, ?_, ?_⟩
  · intro m hm
    obtain ⟨h1, h2, _, htrue⟩ := hforall m hm
    unfold is_metadata_id_used
    rw [if_neg (by omega)]
    exact htrue
  · intro c g1 g2 m hinv1 hstep
    obtain ⟨_, hC, h1, h2, _, hset, _, _, _⟩ := alloc_step_spec caller c g1 m g2 hinv1 hstep
    refine ⟨hC, ?_⟩
    unfold is_metadata_id_used
    rw [if_neg (by omega), hset]
    exact getD_set_eq _ _ _ _ (by have := hinv1.1; omega)

theorem C1_witness :
    ([1] : List Nat).Nodup ∧
    (∀ m ∈ ([1] : List Nat),
      is_metadata_id_used (secure_result (init_global 0) 5 1) m = true) := by
  have hscan : scan_for_metadata_id (init_global 0).nft.used_metadata_ids 1 = 1 := by decide
  have hstep : mint_random_nft_secure 0 5 1 (init_global 0) =
      .ok (1, secure_result (init_global 0) 5 1) := by
    have heq := secure_ok_eq 0 5 1 (init_global 0) rfl (by decide) (by rw [hscan]; decide)
    rw [hscan] at heq
    exact heq
  have hrun : runCalls 0 [AllocCall.secure 5 1] (init_global 0) =
      .ok ([1], secure_result (init_global 0) 5 1) := by
    conv_lhs => unfold runCalls
    rw [show runAlloc 0 (AllocCall.secure 5 1) (init_global 0) =
      .ok (1, secure_result (init_global 0) 5 1) from hstep]
    rfl
  have happ := C1_alloc_ids_distinct_and_used 0 [AllocCall.secure 5 1] (init_global 0)
    (secure_result (init_global 0) 5 1) [1] (init_nft_data_poolInv 0) hrun
  exact ⟨happ.1, happ.2.1⟩

/-- Claim C2: the pool-state invariant (available_count = size of the
available collection = number of false bitmap entries; every id in
1..1200 in exactly one partition) is established by `initialize` and
preserved by every operation of the module (both allocation entry points,
`mint_nft`, `transfer_nft`, `burn_nft`, `admin_burn_nft`); moreover an id
marked used stays used across any operation. -/
theorem C2_pool_invariant_preserved (admin_addr caller : Nat) (op : ModuleOp)
    (g g' : GlobalState) :
    PoolInv (init_nft_data admin_addr) ∧
    (PoolInv g.nft → runOp caller op g = .ok g' → PoolInv g'.nft ∧
      (∀ j, g.nft.used_metadata_ids.getD j true = true →
        g'.nft.used_metadata_ids.getD j true = true)) := by
  refine ⟨init_nft_data_poolInv admin_addr, fun hinv h => ?_⟩
  cases op with
  | opSecure t r =>
    simp only [runOp] at h
    cases hstep : mint_random_nft_secure caller t r g with
    | error e =>
      rw [hstep] at h
      simp at h
    | ok p =>
      obtain ⟨m, g2⟩ := p
      rw [hstep] at h
      simp only [Except.ok.injEq] at h
      rw [← h]
      obtain ⟨_, _, h1, h2, _, hset, _, _, hinv2⟩ :=
        secure_step_spec caller t r g m g2 hinv hstep
      refine ⟨hinv2, fun j hj => ?_⟩
      rw [hset]
      exact getD_set_true_mono _ _ _ hj
  | opFallback t hs =>
    simp only [runOp] at h
    cases hstep : mint_random_nft caller t hs g with
    | error e =>
      rw [hstep] at h
      simp at h
    | ok p =>
      obtain ⟨m, g2⟩ := p
      rw [hstep] at h
      simp only [Except.ok.injEq] at h
      rw [← h]
      obtain ⟨_, _, h1, h2, _, hset, _, _, hinv2⟩ :=
        fallback_step_spec caller t hs g m g2 hinv hstep
      refine ⟨hinv2, fun j hj => ?_⟩
      rw [hset]
      exact getD_set_true_mono _ _ _ hj
  | opMint t n d u ra sk =>
    have hshape := mint_nft_ok_shape caller t n d u ra sk g g' h
    rw [hshape]
    exact ⟨PoolInv_of_fields g.nft _ rfl rfl rfl hinv, fun j hj => hj⟩
  | opTransfer t c nm =>
    obtain ⟨f1, f2, f3, _⟩ := transfer_nft_ok_pool caller t c nm g g' h
    exact ⟨PoolInv_of_fields g.nft g'.nft f1 f2 f3 hinv, fun j hj => by rw [f1]; exact hj⟩
  | opBurn c nm =>
    obtain ⟨f1, f2, f3, _⟩ := burn_nft_ok_pool caller c nm g g' h
    exact ⟨PoolInv_of_fields g.nft g'.nft f1 f2 f3 hinv, fun j hj => by rw [f1]; exact hj⟩
  | opAdminBurn ow nm =>
    obtain ⟨f1, f2, f3, _⟩ := admin_burn_nft_ok_pool caller ow nm g g' h
    exact ⟨PoolInv_of_fields g.nft g'.nft f1 f2 f3 hinv, fun j hj => by rw [f1]; exact hj⟩

theorem C2_witness :
    PoolInv (init_nft_data 0) ∧
    PoolInv ({ nft := { init_nft_data 0 with burn_events := 1 },
               records := [] } : GlobalState).nft := by
  have happ := C2_pool_invariant_preserved 0 0 (ModuleOp.opAdminBurn 5 [7])
    { nft := init_nft_data 0
      records := [{ owner := 5, token_name := [7], rarity := 1, skill := 1, uri := [9] }] }
    { nft := { init_nft_data 0 with burn_events := 1 }, records := [] }
  exact ⟨happ.1, (happ.2 (init_nft_data_poolInv 0) rfl).1⟩

/-- Claim C3: for the admin on a pool satisfying the invariant, both
allocation entry points fail with `PoolExhausted` exactly when
`get_available_count` is zero, and succeed (so in particular never raise
`PoolExhausted`) whenever it is positive (with the secure draw in
`[1, 1200]` as `randomness::u64_range` guarantees). -/
theorem C3_pool_exhausted_iff (caller to_addr r : Nat) (hash : List Nat)
    (g : GlobalState) (hA : caller = g.nft.admin) (hinv : PoolInv g.nft) :
    (get_available_count g = 0 →
      mint_random_nft_secure caller to_addr r g = .error poolExhaustedError ∧
      mint_random_nft caller to_addr hash g = .error poolExhaustedError) ∧
    (0 < get_available_count g → 1 ≤ r → r ≤ MAX_METADATA_ID →
      (∃ m g', mint_random_nft_secure caller to_addr r g = .ok (m, g')) ∧
      (∃ m g', mint_random_nft caller to_addr hash g = .ok (m, g'))) := by
  constructor
  · intro hC
    exact ⟨secure_exhausted_eq caller to_addr r g hA hC,
           fallback_exhausted_eq caller to_addr hash g hA hC⟩
  · intro hC hr1 hr2
    constructor
    · obtain ⟨k, hk, heq, _, _⟩ := scan_succeeds g.nft r hinv hC hr1
      have hz : scan_for_metadata_id g.nft.used_metadata_ids r ≠ 0 := by
        rw [heq]
        omega
      exact ⟨_, _, secure_ok_eq caller to_addr r g hA hC hz⟩
    · exact ⟨_, _, fallback_ok_eq caller to_addr hash g hA hC⟩

theorem C3_witness :
    (mint_random_nft_secure 0 5 1 { nft := exhausted_nft_data 0, records := [] } =
       .error poolExhaustedError ∧
     mint_random_nft 0 5 [2] { nft := exhausted_nft_data 0, records := [] } =
       .error poolExhaustedError) ∧
    ((∃ m g', mint_random_nft_secure 0 5 1 (init_global 0) = .ok (m, g')) ∧
     (∃ m g', mint_random_nft 0 5 [2] (init_global 0) = .ok (m, g'))) :=
  ⟨(C3_pool_exhausted_iff 0 5 1 [2] { nft := exhausted_nft_data 0, records := [] }
      rfl (exhausted_poolInv 0)).1 rfl,
   (C3_pool_exhausted_iff 0 5 1 [2] (init_global 0) rfl
      (init_nft_data_poolInv 0)).2 (by decide) (by decide) (by decide)⟩

/-- Claim C4: `mint_random_nft_secure` selects its identifier by the
circular scan `check = ((r + k - 1) mod 1200) + 1`, `k = 0, 1, 2, …`,
returning the first `check` whose used-bitmap entry is false; while the
pool invariant holds and `available_count > 0` the scan terminates with a
result within `MAX_METADATA_ID` attempts and the call succeeds with that
identifier. -/
theorem C4_secure_scan_characterization (caller to_addr r : Nat) (g : GlobalState)
    (hA : caller = g.nft.admin) (hinv : PoolInv g.nft)
    (hC : 0 < get_available_count g) (hr1 : 1 ≤ r) (hr2 : r ≤ MAX_METADATA_ID) :
    ∃ k g', k < MAX_METADATA_ID ∧
      scan_for_metadata_id g.nft.used_metadata_ids r =
        (r + k - 1) % MAX_METADATA_ID + 1 ∧
      g.nft.used_metadata_ids.getD ((r + k - 1) % MAX_METADATA_ID) true = false ∧
      (∀ j, j < k →
        g.nft.used_metadata_ids.getD ((r + j - 1) % MAX_METADATA_ID) true = true) ∧
      mint_random_nft_secure caller to_addr r g =
        .ok ((r + k - 1) % MAX_METADATA_ID + 1, g') := by
  obtain ⟨k, hk, heq, hfalse, hmin⟩ := scan_succeeds g.nft r hinv hC hr1
  have hz : scan_for_metadata_id g.nft.used_metadata_ids r ≠ 0 := by
    rw [heq]
    omega
  refine ⟨k, secure_result g to_addr (scan_for_metadata_id g.nft.used_metadata_ids r),
    hk, heq, hfalse, hmin, ?_⟩
  rw [secure_ok_eq caller to_addr r g hA hC hz, heq]

theorem C4_witness :
    ∃ k g', k < MAX_METADATA_ID ∧
      scan_for_metadata_id (init_global 0).nft.used_metadata_ids 700 =
        (700 + k - 1) % MAX_METADATA_ID + 1 ∧
      (init_global 0).nft.used_metadata_ids.getD
        ((700 + k - 1) % MAX_METADATA_ID) true = false ∧
      (∀ j, j < k → (init_global 0).nft.used_metadata_ids.getD
        ((700 + j - 1) % MAX_METADATA_ID) true = true) ∧
      mint_random_nft_secure 0 5 700 (init_global 0) =
        .ok ((700 + k - 1) % MAX_METADATA_ID + 1, g') :=
  C4_secure_scan_characterization 0 5 700 (init_global 0) rfl
    (init_nft_data_poolInv 0) (by decide) (by decide) (by decide)

/-- Claim C5: `mint_random_nft` reduces the hash-derived 64-bit value
modulo `available_count` to an index `i`, returns `available[i]`, removes
index `i` by writing the last element over it and shrinking by one
(`swap_remove`), and the selection through the hash pipeline is a
deterministic function of (caller identity, current time, pool state). -/
theorem C5_fallback_selection_spec (caller to_addr : Nat) (hash : List Nat)
    (g : GlobalState) (hA : caller = g.nft.admin) (hinv : PoolInv g.nft)
    (hC : 0 < get_available_count g) :
    (∃ g', mint_random_nft caller to_addr hash g =
        .ok (g.nft.available_metadata_ids.getD
              (bytes_to_u64 (hash.take 8) % g.nft.available_count) 0, g') ∧
      g'.nft.available_metadata_ids =
        swap_remove g.nft.available_metadata_ids
          (bytes_to_u64 (hash.take 8) % g.nft.available_count) ∧
      g'.nft.available_count = g.nft.available_count - 1) ∧
    (∀ (sha3 : List Nat → List Nat) (bcsAddr bcsU64 : Nat → List Nat)
       (c1 c2 t1 t2 : Nat) (g1 g2 : GlobalState),
      c1 = c2 → t1 = t2 → g1 = g2 →
      mint_random_nft_hashed sha3 bcsAddr bcsU64 c1 to_addr t1 g1 =
        mint_random_nft_hashed sha3 bcsAddr bcsU64 c2 to_addr t2 g2) := by
  constructor
  · refine ⟨_, fallback_ok_eq caller to_addr hash g hA hC, ?_, rfl⟩
    show fallback_avail g.nft.available_metadata_ids _ g.nft.available_count = _
    exact fallback_avail_eq_swap_remove _ _ _ hinv.2.1
  · intro sha3 bA bU c1 c2 t1 t2 g1 g2 hc ht hg
    rw [hc, ht, hg]

theorem C5_witness :
    (∃ g', mint_random_nft 0 5 [2] (init_global 0) =
        .ok ((init_global 0).nft.available_metadata_ids.getD
              (bytes_to_u64 ([2].take 8) % (init_global 0).nft.available_count) 0, g') ∧
      g'.nft.available_metadata_ids =
        swap_remove (init_global 0).nft.available_metadata_ids
          (bytes_to_u64 ([2].take 8) % (init_global 0).nft.available_count) ∧
      g'.nft.available_count = (init_global 0).nft.available_count - 1) ∧
    (∀ (sha3 : List Nat → List Nat) (bcsAddr bcsU64 : Nat → List Nat)
       (c1 c2 t1 t2 : Nat) (g1 g2 : GlobalState),
      c1 = c2 → t1 = t2 → g1 = g2 →
      mint_random_nft_hashed sha3 bcsAddr bcsU64 c1 5 t1 g1 =
        mint_random_nft_hashed sha3 bcsAddr bcsU64 c2 5 t2 g2) :=
  C5_fallback_selection_spec 0 5 [2] (init_global 0) rfl
    (init_nft_data_poolInv 0) (by decide)

/-- States for the C6 analysis: `coin_fresh` has no primary store for
player 5 (a brand-new player); `coin_zero_store` has an existing store
with balance 0; `coin_rewarded` is the state after one reward. -/
def coin_fresh : CoinState :=
  { owner := 0, balances := [], mint_events := [], burn_events := [], reward_events := [] }

def coin_zero_store : CoinState :=
  { owner := 0, balances := [(5, 0)], mint_events := [], burn_events := [],
    reward_events := [] }

def coin_rewarded : CoinState :=
  { owner := 0, balances := [(5, INITIAL_PLAYER_AMOUNT)], mint_events := [],
    burn_events := [], reward_events := [(5, INITIAL_PLAYER_AMOUNT)] }

/-- Claim C6 (code bug): for a player with no primary store — the
archetypal new player, whose guarded balance view reads 0 — the admin's
`reward_new_player` call aborts inside the unguarded
`primary_fungible_store::primary_store` with
`not_found(EOBJECT_DOES_NOT_EXIST)` instead of minting, so the claimed
"for any player address, iff balance 0 mint 650, else silent no-op"
behaviour fails exactly at the new-player case it is about.  The claim
is the evident intent: the module's own `balance` view uses the guarded
accessor, and the module's own test rewards a storeless fresh account
and asserts the 650-CoA balance.  For a player whose store exists with
balance 0 the claimed behaviour does hold: exactly
`650 * 10^8 = 65000000000` base units are minted once with one
PlayerReward event, and a second consecutive call is a silent no-op that
credits nothing. -/
theorem C6_reward_new_player_code_bug :
    INITIAL_PLAYER_AMOUNT = 650 * 10 ^ DECIMALS ∧
    coin_balance coin_fresh 5 = 0 ∧
    reward_new_player 0 5 coin_fresh = .error (.notFound EOBJECT_DOES_NOT_EXIST) ∧
    reward_new_player 0 5 coin_zero_store = .ok coin_rewarded ∧
    coin_balance coin_rewarded 5 = 65000000000 ∧
    coin_rewarded.reward_events = [(5, INITIAL_PLAYER_AMOUNT)] ∧
    reward_new_player 0 5 coin_rewarded = .ok coin_rewarded :=
  ⟨rfl, rfl, rfl, rfl, rfl, rfl, rfl⟩

/-- Claim C7: whenever the pool invariant holds at entry with
`available_count > 0` (and the draw is in range), the circular scan finds
an identifier, so the `metadata_id > 0` assert (exhaustion despite
availability) is unreachable; and in any state where the scan does come
back empty with `available_count > 0`, the operation aborts with the
invalid-state error instead of returning an identifier. -/
theorem C7_secure_unreachable_branch :
    (∀ (g : GlobalState) (r : Nat), PoolInv g.nft → 0 < get_available_count g →
      1 ≤ r → r ≤ MAX_METADATA_ID →
      scan_for_metadata_id g.nft.used_metadata_ids r ≠ 0) ∧
    (∀ (caller to_addr r : Nat) (g : GlobalState), caller = g.nft.admin →
      0 < get_available_count g →
      scan_for_metadata_id g.nft.used_metadata_ids r = 0 →
      mint_random_nft_secure caller to_addr r g =
        .error (.invalidState E_COLLECTION_NOT_FOUND)) := by
  constructor
  · intro g r hinv hC hr1 _
    obtain ⟨k, _, heq, _, _⟩ := scan_succeeds g.nft r hinv hC hr1
    rw [heq]
    omega
  · intro caller to_addr r g hA hC hz
    have hC2 : 0 < g.nft.available_count := hC
    unfold mint_random_nft_secure
    rw [if_neg (not_not_intro hA), if_neg (not_not_intro hC2)]
    simp [hz]

/-- A corrupted pool state: the bitmap is empty (so every read defaults
to used) while `available_count` still claims one id is available. -/
def broken_nft_data : VelmoraNFTData :=
  { admin := 0
    used_metadata_ids := []
    available_metadata_ids := []
    available_count := 1
    mint_events := 0
    transfer_events := 0
    burn_events := 0 }

theorem C7_witness :
    scan_for_metadata_id (init_global 0).nft.used_metadata_ids 1 ≠ 0 ∧
    mint_random_nft_secure 0 5 1 { nft := broken_nft_data, records := [] } =
      .error (.invalidState E_COLLECTION_NOT_FOUND) :=
  ⟨C7_secure_unreachable_branch.1 (init_global 0) 1 (init_nft_data_poolInv 0)
      (by decide) (by decide) (by decide),
   C7_secure_unreachable_branch.2 0 5 1 { nft := broken_nft_data, records := [] }
      rfl (by decide) (by decide)⟩

/-- Claim C8 counterexample: a call with `rarity = 101` and a URI that
matches no accepted prefix fails with `InvalidAttribute`
(`E_INVALID_RARITY`), not with `InvalidURI`, so the unconditional
"fails with `InvalidURI` for every bad uri" reading is false. -/
theorem C8_counterexample :
    validate_ipfs_uri [120] = false ∧
    mint_nft 0 5 [] [] [120] 101 0 (init_global 0) =
      .error (.invalidArgument E_INVALID_RARITY) ∧
    MoveError.invalidArgument E_INVALID_RARITY ≠
      MoveError.invalidArgument E_INVALID_URI := by
  refine ⟨by decide, rfl, by decide⟩

/-- Claim C8 (amended): `mint_nft` fails with `InvalidAttribute` for
every call with `rarity > 100` or `skill > 100` (rarity checked first);
fails with `InvalidURI` for every call with valid attributes whose uri
matches no accepted prefix; any such failure creates no record (the
committed state is unchanged); and in particular `rarity = 101` fails
with `InvalidAttribute`. -/
theorem C8_mint_nft_validation (creator t : Nat) (n d u : List Nat) (ra sk : Nat)
    (g : GlobalState) :
    (100 < ra → mint_nft creator t n d u ra sk g =
      .error (.invalidArgument E_INVALID_RARITY)) ∧
    (ra ≤ 100 → 100 < sk → mint_nft creator t n d u ra sk g =
      .error (.invalidArgument E_INVALID_SKILL)) ∧
    (ra ≤ 100 → sk ≤ 100 → validate_ipfs_uri u = false →
      mint_nft creator t n d u ra sk g = .error (.invalidArgument E_INVALID_URI)) ∧
    (∀ e, mint_nft creator t n d u ra sk g = .error e →
      commitGlobal g (mint_nft creator t n d u ra sk g) = g) ∧
    mint_nft creator t n d u 101 sk g = .error (.invalidArgument E_INVALID_RARITY) := by
  refine ⟨?_, ?_, ?_, ?_, ?_⟩
  · intro hra
    unfold mint_nft
    rw [if_pos (by unfold MAX_RARITY; omega)]
  · intro hra hsk
    unfold mint_nft
    rw [if_neg (not_not_intro (by unfold MAX_RARITY; omega)),
      if_pos (by unfold MAX_SKILL; omega)]
  · intro hra hsk hu
    unfold mint_nft
    rw [if_neg (not_not_intro (by unfold MAX_RARITY; omega)),
      if_neg (not_not_intro (by unfold MAX_SKILL; omega)),
      if_pos (by simp [hu])]
  · intro e he
    unfold commitGlobal
    rw [he]
  · unfold mint_nft
    rw [if_pos (by unfold MAX_RARITY; omega)]

theorem C8_witness :
    mint_nft 7 5 [] [] [120] 101 0 (init_global 0) =
      .error (.invalidArgument E_INVALID_RARITY) ∧
    mint_nft 7 5 [] [] [120] 1 0 (init_global 0) =
      .error (.invalidArgument E_INVALID_URI) ∧
    commitGlobal (init_global 0) (mint_nft 7 5 [] [] [120] 101 0 (init_global 0)) =
      init_global 0 := by
  have h1 := C8_mint_nft_validation 7 5 [] [] [120] 101 0 (init_global 0)
  have h2 := C8_mint_nft_validation 7 5 [] [] [120] 1 0 (init_global 0)
  exact ⟨h1.1 (by decide), h2.2.2.1 (by decide) (by decide) (by decide),
    h1.2.2.2.1 _ h1.2.2.2.2⟩

/-- `mint_nft` only succeeds for the stored admin. -/
theorem mint_nft_ok_admin (creator t : Nat) (n d u : List Nat) (ra sk : Nat)
    (g g' : GlobalState) (h : mint_nft creator t n d u ra sk g = .ok g') :
    creator = g.nft.admin := by
  unfold mint_nft at h
  by_cases h1 : ra ≤ MAX_RARITY
  swap
  · rw [if_pos h1] at h
    exact Except.noConfusion h
  rw [if_neg (not_not_intro h1)] at h
  by_cases h2 : sk ≤ MAX_SKILL
  swap
  · rw [if_pos h2] at h
    exact Except.noConfusion h
  rw [if_neg (not_not_intro h2)] at h
  by_cases h3 : validate_ipfs_uri u = true
  swap
  · rw [if_pos h3] at h
    exact Except.noConfusion h
  rw [if_neg (not_not_intro h3)] at h
  by_cases h4 : creator = g.nft.admin
  · exact h4
  · rw [if_pos h4] at h
    exact Except.noConfusion h

/-- Claim C9: every admin-gated mutating operation checks the admin
identity before any state mutation: the coin-ledger `mint` and `burn` by
a non-admin fail with `PermissionDenied` and leave the ledger unchanged;
`mint_nft`, both allocation entry points and `admin_burn_nft` by a
non-admin fail (with `PermissionDenied` whenever the pure input
validations pass) and leave the state unchanged. -/
theorem C9_admin_gate (caller t amount r : Nat) (s : CoinState) (g : GlobalState)
    (n d u : List Nat) (ra sk : Nat) (hash : List Nat) (ow : Nat) (nm : List Nat) :
    (caller ≠ s.owner →
      coin_mint caller t amount s = .error (.permissionDenied E_NOT_OWNER) ∧
      commitCoin s (coin_mint caller t amount s) = s ∧
      coin_burn caller amount s = .error (.permissionDenied E_NOT_OWNER) ∧
      commitCoin s (coin_burn caller amount s) = s) ∧
    (caller ≠ g.nft.admin →
      (ra ≤ 100 → sk ≤ 100 → validate_ipfs_uri u = true →
        mint_nft caller t n d u ra sk g = .error (.permissionDenied E_NOT_AUTHORIZED)) ∧
      commitGlobal g (mint_nft caller t n d u ra sk g) = g ∧
      mint_random_nft_secure caller t r g = .error (.permissionDenied E_NOT_AUTHORIZED) ∧
      mint_random_nft caller t hash g = .error (.permissionDenied E_NOT_AUTHORIZED) ∧
      admin_burn_nft caller ow nm g = .error (.permissionDenied E_NOT_AUTHORIZED)) := by
  constructor
  · intro hne
    have h1 : coin_mint caller t amount s = .error (.permissionDenied E_NOT_OWNER) := by
      unfold coin_mint
      rw [if_pos hne]
    have h2 : coin_burn caller amount s = .error (.permissionDenied E_NOT_OWNER) := by
      unfold coin_burn
      rw [if_pos hne]
    refine ⟨h1, ?_, h2, ?_⟩
    · unfold commitCoin
      rw [h1]
    · unfold commitCoin
      rw [h2]
  · intro hne
    refine ⟨?_, ?_, ?_, ?_, ?_⟩
    · intro hra hsk hu
      unfold mint_nft
      rw [if_neg (not_not_intro (by unfold MAX_RARITY; omega)),
        if_neg (not_not_intro (by unfold MAX_SKILL; omega)),
        if_neg (not_not_intro hu), if_pos hne]
    · unfold commitGlobal
      cases hres : mint_nft caller t n d u ra sk g with
      | error e => rfl
      | ok g2 => exact absurd (mint_nft_ok_admin caller t n d u ra sk g g2 hres) hne
    · unfold mint_random_nft_secure
      rw [if_pos hne]
    · unfold mint_random_nft
      rw [if_pos hne]
    · unfold admin_burn_nft
      rw [if_pos hne]

theorem C9_witness :
    coin_mint 1 5 10 ⟨0, [], [], [], []⟩ = .error (.permissionDenied E_NOT_OWNER) ∧
    commitCoin ⟨0, [], [], [], []⟩ (coin_burn 1 10 ⟨0, [], [], [], []⟩) =
      (⟨0, [], [], [], []⟩ : CoinState) ∧
    mint_random_nft_secure 1 5 1 (init_global 0) =
      .error (.permissionDenied E_NOT_AUTHORIZED) ∧
    commitGlobal (init_global 0) (mint_nft 1 5 [] [] [120] 1 1 (init_global 0)) =
      init_global 0 := by
  have happ := C9_admin_gate 1 5 10 1 ⟨0, [], [], [], []⟩ (init_global 0)
    [] [] [120] 1 1 [2] 7 [3]
  have hcoin := happ.1 (by decide)
  have hnft := happ.2 (by decide)
  exact ⟨hcoin.1, hcoin.2.2.2, hnft.2.2.1, hnft.2.1⟩

/-- Claim C10: burning (`burn_nft` or `admin_burn_nft`) deletes the
record but leaves the pool untouched: the used bitmap, the available
collection and `available_count` are unchanged, so a used identifier
stays used and is never returned to the pool. -/
theorem C10_burn_preserves_pool (ow c adm : Nat) (nm : List Nat) (g g1 g2 : GlobalState) :
    (burn_nft ow c nm g = .ok g1 →
      g1.nft.used_metadata_ids = g.nft.used_metadata_ids ∧
      g1.nft.available_metadata_ids = g.nft.available_metadata_ids ∧
      get_available_count g1 = get_available_count g ∧
      (∀ m, is_metadata_id_used g m = true → is_metadata_id_used g1 m = true)) ∧
    (admin_burn_nft adm ow nm g = .ok g2 →
      g2.nft.used_metadata_ids = g.nft.used_metadata_ids ∧
      g2.nft.available_metadata_ids = g.nft.available_metadata_ids ∧
      get_available_count g2 = get_available_count g ∧
      (∀ m, is_metadata_id_used g m = true → is_metadata_id_used g2 m = true)) := by
  constructor
  · intro h
    obtain ⟨f1, f2, f3, _⟩ := burn_nft_ok_pool ow c nm g g1 h
    refine ⟨f1, f2, f3, fun m hm => ?_⟩
    unfold is_metadata_id_used at hm ⊢
    rw [f1]
    exact hm
  · intro h
    obtain ⟨f1, f2, f3, _⟩ := admin_burn_nft_ok_pool adm ow nm g g2 h
    refine ⟨f1, f2, f3, fun m hm => ?_⟩
    unfold is_metadata_id_used at hm ⊢
    rw [f1]
    exact hm

def c10_pre : GlobalState :=
  { nft := init_nft_data 0
    records := [{ owner := 5, token_name := [7], rarity := 1, skill := 1, uri := [9] }] }

def c10_post : GlobalState :=
  { nft := { init_nft_data 0 with burn_events := 1 }, records := [] }

theorem C10_witness :
    c10_post.nft.used_metadata_ids = c10_pre.nft.used_metadata_ids ∧
    c10_post.nft.available_metadata_ids = c10_pre.nft.available_metadata_ids ∧
    get_available_count c10_post = get_available_count c10_pre ∧
    (∀ m, is_metadata_id_used c10_pre m = true → is_metadata_id_used c10_post m = true) :=
  (C10_burn_preserves_pool 5 0 0 [7] c10_pre c10_post c10_post).1 rfl

end Velmora
